import Mathlib

/-!
Verification of the bare-metal Arduino repository (blink / register
read-write / timer-driven delay).  The memory-mapped register file is
embedded as a function from addresses to byte values; the C helpers
`set_bit`, `clear_bit`, `write_reg`, `read_reg` and the routine
`delay_1000ms` from `03_delay_timer/delay_timer.c` (and the plain
`set_bit`/`clear_bit` of `02_register_ReadWrite/reg_readwrite.c`) are
translated directly.  The timer hardware (prescaled 16-bit counter that
sets the overflow flag on wraparound, write-1-to-clear flag register) is
not software in the repository and is modelled from the spec.
-/

set_option maxRecDepth 4000

/-! ## Memory-mapped register addresses (from the C `#define`s) -/

def DDRB_ADDR : Nat := 0x24
def PORTB_ADDR : Nat := 0x25
def TCCR1A_ADDR : Nat := 0x80
def TCCR1B_ADDR : Nat := 0x81
def TCNT1L_ADDR : Nat := 0x84
def TCNT1H_ADDR : Nat := 0x85
def TIFR1_ADDR : Nat := 0x36

/-- The register file: a byte value for every address.  Stores truncate to
8 bits, as a store through a `uint8_t *` does. -/
def Mem : Type := Nat → Nat

/-- Plain 8-bit store at an address (truncating to a byte). -/
def store (m : Mem) (addr v : Nat) : Mem :=
  fun x => if x = addr then v % 256 else m x

theorem store_self (m : Mem) (a v : Nat) : store m a v a = v % 256 := by
  simp [store]

theorem store_ne (m : Mem) {x a : Nat} (v : Nat) (h : x ≠ a) :
    store m a v x = m x := by
  simp [store, h]

/-! ## Byte-level facts about the C bit operations

`set_bit` ORs in `(1 << bit)`; `clear_bit` ANDs with the 32-bit-int
complement `~(1 << bit)` (the C `int` is 32 bits wide, so `~x` is
`0xFFFFFFFF ^ x`), and the store truncates to 8 bits. -/

theorem or_shift_testBit (v i j : Nat) (hi : i < 8) (hj : j < 8) :
    ((v ||| (1 <<< i)) % 256).testBit j = (if j = i then true else v.testBit j) := by
  have h256 : (256 : Nat) = 2 ^ 8 := by norm_num
  rw [h256, Nat.testBit_mod_two_pow, Nat.testBit_or, Nat.shiftLeft_eq, one_mul,
    Nat.testBit_two_pow]
  rcases eq_or_ne j i with h | h
  · simp [h, hj, hi]
  · simp [h, hj, Ne.symm h]

theorem and_mask_testBit (v i j : Nat) (hi : i < 8) (hj : j < 8) :
    ((v &&& (0xFFFFFFFF ^^^ (1 <<< i))) % 256).testBit j
      = (if j = i then false else v.testBit j) := by
  have h256 : (256 : Nat) = 2 ^ 8 := by norm_num
  have hmask : (0xFFFFFFFF : Nat) = 2 ^ 32 - 1 := by norm_num
  rw [h256, Nat.testBit_mod_two_pow, Nat.testBit_and, hmask, Nat.testBit_xor,
    Nat.testBit_two_pow_sub_one, Nat.shiftLeft_eq, one_mul, Nat.testBit_two_pow]
  rcases eq_or_ne j i with h | h
  · simp [h, hj, hi]
    omega
  · simp [h, hj, Ne.symm h, Nat.lt_of_lt_of_le hj (by norm_num : (8 : Nat) ≤ 32)]

theorem testBit_eq_of_lt_256 {x y : Nat} (hx : x < 256) (hy : y < 256)
    (h : ∀ j, j < 8 → x.testBit j = y.testBit j) : x = y := by
  apply Nat.eq_of_testBit_eq
  intro j
  rcases lt_or_le j 8 with hj | hj
  · exact h j hj
  · have hx8 : x < 2 ^ j :=
      lt_of_lt_of_le hx (by calc (256 : Nat) = 2 ^ 8 := by norm_num
                              _ ≤ 2 ^ j := Nat.pow_le_pow_right (by norm_num) hj)
    have hy8 : y < 2 ^ j :=
      lt_of_lt_of_le hy (by calc (256 : Nat) = 2 ^ 8 := by norm_num
                              _ ≤ 2 ^ j := Nat.pow_le_pow_right (by norm_num) hj)
    rw [Nat.testBit_lt_two_pow hx8, Nat.testBit_lt_two_pow hy8]

/-! ## `02_register_ReadWrite/reg_readwrite.c`

These `set_bit`/`clear_bit` act on plain memory through ordinary
`uint8_t *` pointers (no hardware interposition). -/

namespace Reg

/-- `set_bit(addr, bit)` from `reg_readwrite.c`: read-modify-write that ORs
in `(1 << bit)`. -/
def set_bit (m : Mem) (addr bit : Nat) : Mem :=
  store m addr (m addr ||| (1 <<< bit))

/-- `clear_bit(addr, bit)` from `reg_readwrite.c`: read-modify-write that
ANDs with `~(1 << bit)`. -/
def clear_bit (m : Mem) (addr bit : Nat) : Mem :=
  store m addr (m addr &&& (0xFFFFFFFF ^^^ (1 <<< bit)))

theorem set_bit_self (m : Mem) (a b : Nat) :
    set_bit m a b a = (m a ||| (1 <<< b)) % 256 := by
  simp [set_bit, store_self]

theorem clear_bit_self (m : Mem) (a b : Nat) :
    clear_bit m a b a = (m a &&& (0xFFFFFFFF ^^^ (1 <<< b))) % 256 := by
  simp [clear_bit, store_self]

end Reg

/-- **C4** For every initial byte value at an address and bit index 0–7:
after `set_bit(addr, i)` the register shows bit `i` set with every other
bit unchanged, and after `clear_bit(addr, i)` it shows bit `i` clear with
every other bit unchanged. -/
theorem set_clear_bit_roundtrip (m : Mem) (a i : Nat) (hi : i < 8)
    (hv : m a < 256) :
    (∀ j, j < 8 → (Reg.set_bit m a i a).testBit j
        = (if j = i then true else (m a).testBit j)) ∧
    (∀ j, j < 8 → (Reg.clear_bit m a i a).testBit j
        = (if j = i then false else (m a).testBit j)) ∧
    (∀ x, x ≠ a → Reg.set_bit m a i x = m x) ∧
    (∀ x, x ≠ a → Reg.clear_bit m a i x = m x) := by
  refine ⟨?_, ?_, ?_, ?_⟩
  · intro j hj
    rw [Reg.set_bit_self, or_shift_testBit _ _ _ hi hj]
  · intro j hj
    rw [Reg.clear_bit_self, and_mask_testBit _ _ _ hi hj]
  · intro x hx
    exact store_ne m _ hx
  · intro x hx
    exact store_ne m _ hx

/-- Witness for `set_clear_bit_roundtrip` at a concrete register file. -/
theorem set_clear_bit_roundtrip_witness :
    (3 : Nat) < 8 ∧ ((fun _ => 0x41 : Mem) 0x25) < 256 ∧
    (∀ j, j < 8 → ((Reg.set_bit (fun _ => 0x41) 0x25 3) 0x25).testBit j
        = (if j = 3 then true else ((0x41 : Nat)).testBit j)) :=
  ⟨by decide, by decide,
    (set_clear_bit_roundtrip (fun _ => 0x41) 0x25 3 (by decide) (by decide)).1⟩

/-- Byte-level idempotence facts behind C10, proved from the generic
testBit lemmas. -/
theorem or_shift_idem (v i : Nat) (hi : i < 8) (hv : v < 256) :
    (((v ||| (1 <<< i)) % 256) ||| (1 <<< i)) % 256 = (v ||| (1 <<< i)) % 256 := by
  apply testBit_eq_of_lt_256 (Nat.mod_lt _ (by norm_num)) (Nat.mod_lt _ (by norm_num))
  intro j hj
  rw [or_shift_testBit _ _ _ hi hj, or_shift_testBit _ _ _ hi hj]
  rcases eq_or_ne j i with h | h
  · simp [h]
  · simp [h, or_shift_testBit _ _ _ hi hj]

theorem and_mask_idem (v i : Nat) (hi : i < 8) (hv : v < 256) :
    (((v &&& (0xFFFFFFFF ^^^ (1 <<< i))) % 256) &&& (0xFFFFFFFF ^^^ (1 <<< i))) % 256
      = (v &&& (0xFFFFFFFF ^^^ (1 <<< i))) % 256 := by
  apply testBit_eq_of_lt_256 (Nat.mod_lt _ (by norm_num)) (Nat.mod_lt _ (by norm_num))
  intro j hj
  rw [and_mask_testBit _ _ _ hi hj, and_mask_testBit _ _ _ hi hj]
  rcases eq_or_ne j i with h | h
  · simp [h]
  · simp [h, and_mask_testBit _ _ _ hi hj]

theorem clear_after_set (v i : Nat) (hi : i < 8) (hv : v < 256) :
    (((v ||| (1 <<< i)) % 256) &&& (0xFFFFFFFF ^^^ (1 <<< i))) % 256
      = (v &&& (0xFFFFFFFF ^^^ (1 <<< i))) % 256 := by
  apply testBit_eq_of_lt_256 (Nat.mod_lt _ (by norm_num)) (Nat.mod_lt _ (by norm_num))
  intro j hj
  rw [and_mask_testBit _ _ _ hi hj, and_mask_testBit _ _ _ hi hj]
  rcases eq_or_ne j i with h | h
  · simp [h]
  · simp [h, or_shift_testBit _ _ _ hi hj]

/-- **C10** `set_bit` and `clear_bit` are idempotent on the register state,
and `clear_bit i` after `set_bit i` agrees with `clear_bit i` on the
original state (pointwise on every address). -/
theorem set_clear_bit_idempotent (m : Mem) (a i : Nat) (hi : i < 8)
    (hv : m a < 256) :
    (∀ x, Reg.set_bit (Reg.set_bit m a i) a i x = Reg.set_bit m a i x) ∧
    (∀ x, Reg.clear_bit (Reg.clear_bit m a i) a i x = Reg.clear_bit m a i x) ∧
    (∀ x, Reg.clear_bit (Reg.set_bit m a i) a i x = Reg.clear_bit m a i x) := by
  refine ⟨?_, ?_, ?_⟩ <;> intro x <;> rcases eq_or_ne x a with rfl | hx
  · rw [Reg.set_bit_self, Reg.set_bit_self, or_shift_idem _ _ hi hv]
  · simp [Reg.set_bit, store_ne _ _ hx]
  · rw [Reg.clear_bit_self, Reg.clear_bit_self, and_mask_idem _ _ hi hv]
  · simp [Reg.clear_bit, store_ne _ _ hx]
  · rw [Reg.clear_bit_self, Reg.clear_bit_self, Reg.set_bit_self,
      clear_after_set _ _ hi hv]
  · simp [Reg.clear_bit, Reg.set_bit, store_ne _ _ hx]

/-- Witness for `set_clear_bit_idempotent` at a concrete register file. -/
theorem set_clear_bit_idempotent_witness :
    (5 : Nat) < 8 ∧ ((fun _ => 0x13 : Mem) 0x24) < 256 ∧
    (∀ x, Reg.clear_bit (Reg.set_bit (fun _ => 0x13) 0x24 5) 0x24 5 x
        = Reg.clear_bit (fun _ => 0x13) 0x24 5 x) :=
  ⟨by decide, by decide,
    (set_clear_bit_idempotent (fun _ => 0x13) 0x24 5 (by decide) (by decide)).2.2⟩

/-! ## `03_delay_timer/delay_timer.c`

The routine is embedded operationally.  Every register access of the C
code is also recorded as an event, so that ordering claims about the
write trace can be stated. -/

/-- One register access: a read observing a value, or a write of a byte. -/
inductive Ev
  | rd (addr val : Nat)
  | wr (addr val : Nat)
deriving DecidableEq

/-- The write events of a trace, as (address, byte) pairs in order. -/
def writesOf (evs : List Ev) : List (Nat × Nat) :=
  evs.filterMap fun e => match e with
    | .wr a v => some (a, v)
    | .rd _ _ => none

/-- The number of read events of a trace (one per polling-loop iteration,
plus the read inside `set_bit`). -/
def rdCount (evs : List Ev) : Nat :=
  (evs.filter fun e => match e with
    | .rd _ _ => true
    | .wr _ _ => false).length

/-- `read_reg(addr)` from `delay_timer.c`: load the byte at `addr`. -/
def read_reg (m : Mem) (addr : Nat) : Nat := m addr % 256

/-- Modelled from the spec: the overflow flag register TIFR1 has
write-1-to-clear semantics — a CPU store to it clears exactly the status
bits written as 1 and leaves the rest; stores to every other address are
plain byte stores.  This hardware behaviour is not source code of the
repository. -/
def cpuStore (m : Mem) (addr v : Nat) : Mem :=
  if addr = TIFR1_ADDR then
    store m addr ((m addr % 256) &&& (255 ^^^ (v % 256)))
  else store m addr v

/-- `write_reg(addr, value)` from `delay_timer.c`: store the byte at
`addr` (interpreted by the hardware, see `cpuStore`). -/
def write_reg (m : Mem) (addr v : Nat) : Mem := cpuStore m addr v

/-- `set_bit(addr, bit)` from `delay_timer.c`, with its event trace:
read the register, OR in `(1 << bit)`, store the result. -/
def set_bit (m : Mem) (addr bit : Nat) : Mem × List Ev :=
  let v := read_reg m addr
  (write_reg m addr (v ||| (1 <<< bit)),
    [Ev.rd addr v, Ev.wr addr ((v ||| (1 <<< bit)) % 256)])

/-- `clear_bit(addr, bit)` from `delay_timer.c`, with its event trace. -/
def clear_bit (m : Mem) (addr bit : Nat) : Mem × List Ev :=
  let v := read_reg m addr
  (write_reg m addr (v &&& (0xFFFFFFFF ^^^ (1 <<< bit))),
    [Ev.rd addr v, Ev.wr addr ((v &&& (0xFFFFFFFF ^^^ (1 <<< bit))) % 256)])

/-- Modelled from the spec: one prescaled hardware tick.  When a nonzero
clock source is selected in TCCR1B, the 16-bit counter held in
TCNT1H:TCNT1L increments, wrapping from 0xFFFF to 0; on that wrap the
hardware sets bit 0 (TOV1) of TIFR1.  This hardware behaviour is not
source code of the repository. -/
def tick (m : Mem) : Mem :=
  if read_reg m TCCR1B_ADDR &&& 7 = 0 then m
  else
    let c := (read_reg m TCNT1L_ADDR + 256 * read_reg m TCNT1H_ADDR + 1) % 65536
    let m1 := store (store m TCNT1L_ADDR (c % 256)) TCNT1H_ADDR (c / 256)
    if c = 0 then store m1 TIFR1_ADDR (read_reg m1 TIFR1_ADDR ||| 1) else m1

/-- The busy-wait loop `while (!(read_reg(TIFR1_ADDR) & 1));`, fuel-bounded.
Each iteration re-reads TIFR1 (recorded as a read event); between two
consecutive polls the hardware performs one `tick`.  Returns the machine
state at loop exit together with the trace of poll reads, or `none` if
the flag was not observed within `fuel` iterations. -/
def pollT (m : Mem) : Nat → Option (Mem × List Ev)
  | 0 => none
  | fuel + 1 =>
    let v := read_reg m TIFR1_ADDR
    if v &&& 1 = 0 then
      match pollT (tick m) fuel with
      | none => none
      | some (m', evs) => some (m', Ev.rd TIFR1_ADDR v :: evs)
    else some (m, [Ev.rd TIFR1_ADDR v])

/-- The four configuration/preload writes `delay_1000ms` performs before
polling: TCCR1A := 0x00 (normal mode), TCCR1B := 0x04 (prescaler 256),
TCNT1L := 0xDB, TCNT1H := 0x0B. -/
def setupEvs : List Ev :=
  [Ev.wr TCCR1A_ADDR 0x00, Ev.wr TCCR1B_ADDR 0x04,
   Ev.wr TCNT1L_ADDR 0xDB, Ev.wr TCNT1H_ADDR 0x0B]

/-- `delay_1000ms()` from `delay_timer.c`: write the two control
registers, preload the counter low then high byte, busy-wait on TIFR1
bit 0, then `set_bit(TIFR1_ADDR, 0)`.  Fuel bounds the busy-wait. -/
def delay_1000ms (m : Mem) (fuel : Nat) : Option (Mem × List Ev) :=
  let m1 := write_reg m TCCR1A_ADDR 0x00
  let m2 := write_reg m1 TCCR1B_ADDR 0x04
  let m3 := write_reg m2 TCNT1L_ADDR 0xDB
  let m4 := write_reg m3 TCNT1H_ADDR 0x0B
  match pollT m4 fuel with
  | none => none
  | some (m5, evs) =>
    let s := set_bit m5 TIFR1_ADDR 0
    some (s.1, (setupEvs ++ evs) ++ s.2)

/-- The same busy-wait loop abstracted over the sequence of TIFR1 values
it observes (`r n` is the value read at the n-th poll): returns the index
at which bit 0 is first seen, or `none` if that does not happen within
`fuel` polls. -/
def pollO (r : Nat → Nat) (i : Nat) : Nat → Option Nat
  | 0 => none
  | fuel + 1 => if r i &&& 1 = 0 then pollO r (i + 1) fuel else some i

/-- One iteration of `main`'s loop in `delay_timer.c`:
`set_bit(PORTB_ADDR, 5); delay_1000ms(); clear_bit(PORTB_ADDR, 5);
delay_1000ms();`, with the concatenated event trace. -/
def cycle (m : Mem) (fuel : Nat) : Option (Mem × List Ev) :=
  let s1 := set_bit m PORTB_ADDR 5
  match delay_1000ms s1.1 fuel with
  | none => none
  | some (m2, e2) =>
    let s3 := clear_bit m2 PORTB_ADDR 5
    match delay_1000ms s3.1 fuel with
    | none => none
    | some (m4, e4) => some (m4, s1.2 ++ e2 ++ s3.2 ++ e4)

/-- The one-time initialisation of `main`: `set_bit(DDRB_ADDR, 5)`. -/
def mainInit (m : Mem) : Mem × List Ev := set_bit m DDRB_ADDR 5

/-- Half an iteration of `main`'s loop: on even half-steps the pin is set
high, on odd ones it is set low; each half-step ends with a call to
`delay_1000ms`. -/
def halfStep (m : Mem) (fuel n : Nat) : Option Mem :=
  let s := if n % 2 = 0 then set_bit m PORTB_ADDR 5 else clear_bit m PORTB_ADDR 5
  (delay_1000ms s.1 fuel).map Prod.fst

/-- The state of `main` after the initialisation and `n` half-iterations
of its infinite loop. -/
def halfRun (m : Mem) (fuel : Nat) : Nat → Option Mem
  | 0 => some (mainInit m).1
  | n + 1 =>
    match halfRun m fuel n with
    | none => none
    | some mn => halfStep mn fuel n

/-! ## Arithmetic helpers -/

/-- The 16-bit counter value held in TCNT1H:TCNT1L. -/
def cnt (m : Mem) : Nat :=
  read_reg m TCNT1L_ADDR + 256 * read_reg m TCNT1H_ADDR

theorem mod256_and_one (x : Nat) : x % 256 &&& 1 = x &&& 1 := by
  rw [Nat.and_one_is_mod, Nat.and_one_is_mod, Nat.mod_mod_of_dvd]
  norm_num

theorem or_one_and_one (x : Nat) : (x ||| 1) &&& 1 = 1 := by
  rw [Nat.and_one_is_mod]
  have h : (x ||| 1).testBit 0 = true := by
    rw [Nat.testBit_or]
    simp
  rw [Nat.testBit_zero] at h
  exact of_decide_eq_true h

theorem or_one_lt_256 : ∀ u, u < 256 → u ||| 1 < 256 := by decide

theorem and_not_self_byte : ∀ u, u < 256 → u &&& (255 ^^^ u) = 0 := by decide

theorem cnt_lt (m : Mem) : cnt m < 65536 := by
  have h1 : read_reg m TCNT1L_ADDR < 256 := Nat.mod_lt _ (by norm_num)
  have h2 : read_reg m TCNT1H_ADDR < 256 := Nat.mod_lt _ (by norm_num)
  unfold cnt
  omega

/-! ## Behaviour of one hardware tick -/

theorem tick_no_wrap (m : Mem) (hb : ¬ read_reg m TCCR1B_ADDR &&& 7 = 0)
    (hc : cnt m + 1 < 65536) :
    cnt (tick m) = cnt m + 1 ∧ tick m TIFR1_ADDR = m TIFR1_ADDR ∧
    (∀ a, a ≠ TCNT1L_ADDR → a ≠ TCNT1H_ADDR → tick m a = m a) := by
  have hmod : (read_reg m TCNT1L_ADDR + 256 * read_reg m TCNT1H_ADDR + 1) % 65536
      = cnt m + 1 := by
    unfold cnt at hc ⊢
    omega
  have hne : ¬ cnt m + 1 = 0 := by omega
  have htick : tick m
      = store (store m TCNT1L_ADDR ((cnt m + 1) % 256)) TCNT1H_ADDR ((cnt m + 1) / 256) := by
    unfold tick
    rw [if_neg hb]
    simp only [hmod, if_neg hne]
  have e84 : read_reg (tick m) TCNT1L_ADDR = (cnt m + 1) % 256 := by
    unfold read_reg
    rw [htick, store_ne _ _ (by norm_num [TCNT1L_ADDR, TCNT1H_ADDR]), store_self]
    omega
  have e85 : read_reg (tick m) TCNT1H_ADDR = (cnt m + 1) / 256 := by
    unfold read_reg
    rw [htick, store_self]
    omega
  refine ⟨?_, ?_, ?_⟩
  · unfold cnt
    rw [e84, e85]
    have hcm : cnt m = read_reg m TCNT1L_ADDR + 256 * read_reg m TCNT1H_ADDR := rfl
    omega
  · rw [htick, store_ne _ _ (by norm_num [TIFR1_ADDR, TCNT1H_ADDR]),
      store_ne _ _ (by norm_num [TIFR1_ADDR, TCNT1L_ADDR])]
  · intro a h84 h85
    rw [htick, store_ne _ _ h85, store_ne _ _ h84]

theorem tick_wrap (m : Mem) (hb : ¬ read_reg m TCCR1B_ADDR &&& 7 = 0)
    (hc : cnt m = 65535) :
    tick m TCNT1L_ADDR = 0 ∧ tick m TCNT1H_ADDR = 0 ∧
    tick m TIFR1_ADDR = ((m TIFR1_ADDR % 256) ||| 1) % 256 ∧
    (∀ a, a ≠ TCNT1L_ADDR → a ≠ TCNT1H_ADDR → a ≠ TIFR1_ADDR → tick m a = m a) := by
  have hmod : (read_reg m TCNT1L_ADDR + 256 * read_reg m TCNT1H_ADDR + 1) % 65536
      = 0 := by
    unfold cnt at hc
    omega
  have htick : tick m
      = store (store (store m TCNT1L_ADDR (0 % 256)) TCNT1H_ADDR (0 / 256)) TIFR1_ADDR
          (read_reg (store (store m TCNT1L_ADDR (0 % 256)) TCNT1H_ADDR (0 / 256))
            TIFR1_ADDR ||| 1) := by
    unfold tick
    rw [if_neg hb]
    simp only [hmod, eq_self_iff_true, if_true]
  have h84 : tick m TCNT1L_ADDR = 0 := by
    rw [htick, store_ne _ _ (by norm_num [TCNT1L_ADDR, TIFR1_ADDR]),
      store_ne _ _ (by norm_num [TCNT1L_ADDR, TCNT1H_ADDR]), store_self]
  have h85 : tick m TCNT1H_ADDR = 0 := by
    rw [htick, store_ne _ _ (by norm_num [TCNT1H_ADDR, TIFR1_ADDR]), store_self]
  refine ⟨h84, h85, ?_, ?_⟩
  · rw [htick, store_self]
    unfold read_reg
    rw [store_ne _ _ (by norm_num [TIFR1_ADDR, TCNT1H_ADDR]),
      store_ne _ _ (by norm_num [TIFR1_ADDR, TCNT1L_ADDR])]
  · intro a ha84 ha85 ha36
    rw [htick, store_ne _ _ ha36, store_ne _ _ ha85, store_ne _ _ ha84]

/-! ## The busy-wait loop under the running timer -/

theorem pollT_run : ∀ k, 1 ≤ k → k ≤ 65536 → ∀ m f, k < f →
    ¬ read_reg m TCCR1B_ADDR &&& 7 = 0 →
    m TIFR1_ADDR &&& 1 = 0 →
    cnt m = 65536 - k →
    ∃ m', pollT m f
        = some (m', List.replicate k (Ev.rd TIFR1_ADDR (m TIFR1_ADDR % 256))
            ++ [Ev.rd TIFR1_ADDR ((m TIFR1_ADDR % 256) ||| 1)]) ∧
      m' TCNT1L_ADDR = 0 ∧ m' TCNT1H_ADDR = 0 ∧
      m' TIFR1_ADDR = (m TIFR1_ADDR % 256) ||| 1 ∧
      (∀ a, a ≠ TCNT1L_ADDR → a ≠ TCNT1H_ADDR → a ≠ TIFR1_ADDR → m' a = m a) := by
  intro k
  induction k with
  | zero => omega
  | succ n ih =>
    intro _ hk2 m f hf hb hflag hcnt
    obtain ⟨f', rfl⟩ : ∃ f', f = f' + 1 := ⟨f - 1, by omega⟩
    have hu : m TIFR1_ADDR % 256 < 256 := Nat.mod_lt _ (by norm_num)
    have hread : read_reg m TIFR1_ADDR &&& 1 = 0 := by
      unfold read_reg
      rw [mod256_and_one]
      exact hflag
    rcases Nat.eq_zero_or_pos n with rfl | hn
    · -- base case: the counter is at 0xFFFF, the next tick wraps and
      -- sets the flag, the following poll observes it
      have hcm : cnt m = 65535 := by omega
      obtain ⟨t84, t85, t36, tfr⟩ := tick_wrap m hb hcm
      obtain ⟨f'', rfl⟩ : ∃ f'', f' = f'' + 1 := ⟨f' - 1, by omega⟩
      have hv36 : tick m TIFR1_ADDR = (m TIFR1_ADDR % 256) ||| 1 := by
        rw [t36, Nat.mod_eq_of_lt (or_one_lt_256 _ hu)]
      have hread2 : ¬ read_reg (tick m) TIFR1_ADDR &&& 1 = 0 := by
        unfold read_reg
        rw [mod256_and_one, hv36, or_one_and_one]
        norm_num
      refine ⟨tick m, ?_, t84, t85, hv36, tfr⟩
      unfold pollT
      rw [if_pos hread]
      unfold pollT
      rw [if_neg hread2]
      unfold read_reg
      rw [hv36, Nat.mod_eq_of_lt (or_one_lt_256 _ hu)]
      rfl
    · -- inductive step: one non-wrapping tick, then the loop continues
      have hcm : cnt m + 1 < 65536 := by omega
      obtain ⟨tc, t36, tfr⟩ := tick_no_wrap m hb hcm
      have hb2 : ¬ read_reg (tick m) TCCR1B_ADDR &&& 7 = 0 := by
        unfold read_reg
        rw [tfr _ (by norm_num [TCCR1B_ADDR, TCNT1L_ADDR])
          (by norm_num [TCCR1B_ADDR, TCNT1H_ADDR])]
        exact hb
      have hflag2 : tick m TIFR1_ADDR &&& 1 = 0 := by
        rw [t36]
        exact hflag
      have hcnt2 : cnt (tick m) = 65536 - n := by omega
      obtain ⟨m', hpoll, h84, h85, h36, hfr⟩ :=
        ih hn (by omega) (tick m) f' (by omega) hb2 hflag2 hcnt2
      refine ⟨m', ?_, h84, h85, ?_, ?_⟩
      · unfold pollT
        rw [if_pos hread, hpoll, t36]
        rw [List.replicate_succ]
        rfl
      · rw [h36, t36]
      · intro a ha84 ha85 ha36
        rw [hfr a ha84 ha85 ha36, tfr a ha84 ha85]

/-! ## A full run of `delay_1000ms` from a flag-clear state -/

theorem or_or_one : ∀ u, u < 256 → (u ||| 1) ||| 1 = u ||| 1 := by decide

theorem write_reg_ne (m : Mem) (addr v : Nat) (h : ¬ addr = TIFR1_ADDR) :
    write_reg m addr v = store m addr v := by
  unfold write_reg cpuStore
  rw [if_neg h]

/-- The complete event trace of one `delay_1000ms` call that starts with
the overflow flag clear and reads the byte `u` from TIFR1 while waiting:
the four setup writes, 62501 polls observing `u` (bit 0 clear), the poll
observing `u ||| 1` after the counter wrapped, and the read/write pair of
the final `set_bit(TIFR1_ADDR, 0)`. -/
def delayTrace (u : Nat) : List Ev :=
  (setupEvs ++ (List.replicate 62501 (Ev.rd TIFR1_ADDR u)
    ++ [Ev.rd TIFR1_ADDR (u ||| 1)]))
    ++ [Ev.rd TIFR1_ADDR (u ||| 1), Ev.wr TIFR1_ADDR (u ||| 1)]

theorem delay_spec (m : Mem) (hflag : m TIFR1_ADDR &&& 1 = 0) :
    ∃ m', delay_1000ms m 62502 = some (m', delayTrace (m TIFR1_ADDR % 256)) ∧
      m' TCCR1A_ADDR = 0 ∧ m' TCCR1B_ADDR = 4 ∧
      m' TCNT1L_ADDR = 0 ∧ m' TCNT1H_ADDR = 0 ∧ m' TIFR1_ADDR = 0 ∧
      (∀ a, a ≠ TCCR1A_ADDR → a ≠ TCCR1B_ADDR → a ≠ TCNT1L_ADDR →
        a ≠ TCNT1H_ADDR → a ≠ TIFR1_ADDR → m' a = m a) := by
  have hu : m TIFR1_ADDR % 256 < 256 := Nat.mod_lt _ (by norm_num)
  have hsetup : write_reg (write_reg (write_reg (write_reg m TCCR1A_ADDR 0x00)
        TCCR1B_ADDR 0x04) TCNT1L_ADDR 0xDB) TCNT1H_ADDR 0x0B
      = store (store (store (store m TCCR1A_ADDR 0x00) TCCR1B_ADDR 0x04)
          TCNT1L_ADDR 0xDB) TCNT1H_ADDR 0x0B := by
    rw [write_reg_ne m TCCR1A_ADDR 0x00 (by simp [TCCR1A_ADDR, TIFR1_ADDR])]
    rw [write_reg_ne _ TCCR1B_ADDR 0x04 (by simp [TCCR1B_ADDR, TIFR1_ADDR])]
    rw [write_reg_ne _ TCNT1L_ADDR 0xDB (by simp [TCNT1L_ADDR, TIFR1_ADDR])]
    rw [write_reg_ne _ TCNT1H_ADDR 0x0B (by simp [TCNT1H_ADDR, TIFR1_ADDR])]
  have hb4 : ¬ read_reg (store (store (store (store m TCCR1A_ADDR 0x00)
        TCCR1B_ADDR 0x04) TCNT1L_ADDR 0xDB) TCNT1H_ADDR 0x0B) TCCR1B_ADDR &&& 7 = 0 := by
    simp [read_reg, store, TCCR1A_ADDR, TCCR1B_ADDR, TCNT1L_ADDR, TCNT1H_ADDR]
  have hS36 : (store (store (store (store m TCCR1A_ADDR 0x00) TCCR1B_ADDR 0x04)
        TCNT1L_ADDR 0xDB) TCNT1H_ADDR 0x0B) TIFR1_ADDR = m TIFR1_ADDR := by
    simp [store, TCCR1A_ADDR, TCCR1B_ADDR, TCNT1L_ADDR, TCNT1H_ADDR, TIFR1_ADDR]
  have hflag4 : (store (store (store (store m TCCR1A_ADDR 0x00) TCCR1B_ADDR 0x04)
        TCNT1L_ADDR 0xDB) TCNT1H_ADDR 0x0B) TIFR1_ADDR &&& 1 = 0 := by
    rw [hS36]
    exact hflag
  have hcnt4 : cnt (store (store (store (store m TCCR1A_ADDR 0x00) TCCR1B_ADDR 0x04)
        TCNT1L_ADDR 0xDB) TCNT1H_ADDR 0x0B) = 65536 - 62501 := by
    simp [cnt, read_reg, store, TCNT1L_ADDR, TCNT1H_ADDR]
  obtain ⟨m5, hpoll, p84, p85, p36, pfr⟩ :=
    pollT_run 62501 (by norm_num) (by norm_num) _ 62502 (by norm_num) hb4 hflag4 hcnt4
  rw [hS36] at hpoll p36
  have hread5 : read_reg m5 TIFR1_ADDR = (m TIFR1_ADDR % 256) ||| 1 := by
    unfold read_reg
    rw [p36, Nat.mod_eq_of_lt (or_one_lt_256 _ hu)]
  have h1 : ((m TIFR1_ADDR % 256 ||| 1) ||| 1 <<< 0) = m TIFR1_ADDR % 256 ||| 1 := by
    have h2 := or_or_one _ hu
    simpa using h2
  have hsb : (set_bit m5 TIFR1_ADDR 0).1
      = store m5 TIFR1_ADDR ((m5 TIFR1_ADDR % 256)
          &&& (255 ^^^ ((read_reg m5 TIFR1_ADDR ||| 1 <<< 0) % 256))) := rfl
  have hfin : (set_bit m5 TIFR1_ADDR 0).1 TIFR1_ADDR = 0 := by
    rw [hsb, store_self, hread5, h1, p36, Nat.mod_eq_of_lt (or_one_lt_256 _ hu),
      and_not_self_byte _ (or_one_lt_256 _ hu)]
  have hfin_ne : ∀ a, a ≠ TIFR1_ADDR → (set_bit m5 TIFR1_ADDR 0).1 a = m5 a := by
    intro a ha
    rw [hsb]
    exact store_ne _ _ ha
  have hevs : (set_bit m5 TIFR1_ADDR 0).2
      = [Ev.rd TIFR1_ADDR ((m TIFR1_ADDR % 256) ||| 1),
         Ev.wr TIFR1_ADDR ((m TIFR1_ADDR % 256) ||| 1)] := by
    have hevs0 : (set_bit m5 TIFR1_ADDR 0).2
        = [Ev.rd TIFR1_ADDR (read_reg m5 TIFR1_ADDR),
           Ev.wr TIFR1_ADDR ((read_reg m5 TIFR1_ADDR ||| 1 <<< 0) % 256)] := rfl
    rw [hevs0, hread5, h1, Nat.mod_eq_of_lt (or_one_lt_256 _ hu)]
  refine ⟨(set_bit m5 TIFR1_ADDR 0).1, ?_, ?_, ?_, ?_, ?_, hfin, ?_⟩
  · unfold delay_1000ms
    simp only [hsetup, hpoll, hevs]
    rfl
  · rw [hfin_ne TCCR1A_ADDR (by simp [TCCR1A_ADDR, TIFR1_ADDR]),
      pfr TCCR1A_ADDR (by simp [TCCR1A_ADDR, TCNT1L_ADDR])
        (by simp [TCCR1A_ADDR, TCNT1H_ADDR]) (by simp [TCCR1A_ADDR, TIFR1_ADDR])]
    simp [store, TCCR1A_ADDR, TCCR1B_ADDR, TCNT1L_ADDR, TCNT1H_ADDR]
  · rw [hfin_ne TCCR1B_ADDR (by simp [TCCR1B_ADDR, TIFR1_ADDR]),
      pfr TCCR1B_ADDR (by simp [TCCR1B_ADDR, TCNT1L_ADDR])
        (by simp [TCCR1B_ADDR, TCNT1H_ADDR]) (by simp [TCCR1B_ADDR, TIFR1_ADDR])]
    simp [store, TCCR1B_ADDR, TCNT1L_ADDR, TCNT1H_ADDR]
  · rw [hfin_ne TCNT1L_ADDR (by simp [TCNT1L_ADDR, TIFR1_ADDR])]
    exact p84
  · rw [hfin_ne TCNT1H_ADDR (by simp [TCNT1H_ADDR, TIFR1_ADDR])]
    exact p85
  · intro a h80 h81 h84 h85 h36
    rw [hfin_ne a h36, pfr a h84 h85 h36, store_ne _ _ h85, store_ne _ _ h84,
      store_ne _ _ h81, store_ne _ _ h80]

/-! ## Shape of an arbitrary successful run -/

theorem clear_write_zero : ∀ x, x < 256 →
    (x &&& (255 ^^^ ((x ||| 1) % 256))) % 256 = 0 := by decide

theorem getLast?_append_pair {α} (X : List α) (a b : α) :
    (X ++ [a, b]).getLast? = some b := by
  rw [show [a, b] = [a] ++ [b] from rfl, ← List.append_assoc, List.getLast?_concat]

theorem getLast?_cons_ne {α} (a : α) (l : List α) (h : l ≠ []) :
    (a :: l).getLast? = l.getLast? := by
  cases l
  · exact absurd rfl h
  · rfl

theorem writesOf_append (l1 l2 : List Ev) :
    writesOf (l1 ++ l2) = writesOf l1 ++ writesOf l2 := by
  unfold writesOf
  rw [List.filterMap_append]

theorem writesOf_replicate_rd (k a v : Nat) :
    writesOf (List.replicate k (Ev.rd a v)) = [] := by
  induction k with
  | zero => rfl
  | succ n ih =>
    rw [List.replicate_succ]
    unfold writesOf at ih ⊢
    rw [List.filterMap_cons]
    exact ih

theorem rdCount_append (l1 l2 : List Ev) :
    rdCount (l1 ++ l2) = rdCount l1 + rdCount l2 := by
  unfold rdCount
  rw [List.filter_append, List.length_append]

theorem rdCount_replicate_rd (k a v : Nat) :
    rdCount (List.replicate k (Ev.rd a v)) = k := by
  unfold rdCount
  rw [List.filter_eq_self.mpr (by intro b hb; rw [List.eq_of_mem_replicate hb])]
  exact List.length_replicate k _

/-- Every successful run of the busy-wait loop consists solely of reads of
TIFR1: every poll before the last observes bit 0 clear, the last poll
observes bit 0 set, and the state at exit still shows that value. -/
theorem pollT_shape : ∀ (f : Nat) (m m' : Mem) (evs : List Ev),
    pollT m f = some (m', evs) →
    evs ≠ [] ∧
    (∀ e ∈ evs, ∃ u, e = Ev.rd TIFR1_ADDR u) ∧
    (∃ w, evs.getLast? = some (Ev.rd TIFR1_ADDR w) ∧ ¬ w &&& 1 = 0 ∧
      read_reg m' TIFR1_ADDR = w) ∧
    (∀ i, i + 1 < evs.length →
      ∃ u, evs.getD i (Ev.rd 0 0) = Ev.rd TIFR1_ADDR u ∧ u &&& 1 = 0) ∧
    writesOf evs = [] := by
  intro f
  induction f with
  | zero =>
    intro m m' evs h
    exact absurd h (by simp [pollT])
  | succ n ih =>
    intro m m' evs h
    unfold pollT at h
    by_cases hv : read_reg m TIFR1_ADDR &&& 1 = 0
    · rw [if_pos hv] at h
      rcases hp : pollT (tick m) n with _ | p
      · rw [hp] at h
        exact absurd h (by simp)
      · rw [hp] at h
        obtain ⟨m2, evs2⟩ := p
        injection h with h
        injection h with h1 h2
        subst h1
        subst h2
        obtain ⟨hne, hrd, ⟨w, hlast, hw, hm2⟩, hpre, hwr⟩ := ih (tick m) m2 evs2 hp
        refine ⟨by simp, ?_, ⟨w, ?_, hw, hm2⟩, ?_, ?_⟩
        · intro e he
          rcases List.mem_cons.mp he with rfl | he2
          · exact ⟨read_reg m TIFR1_ADDR, rfl⟩
          · exact hrd e he2
        · rw [getLast?_cons_ne _ _ hne]
          exact hlast
        · intro i hi
          rcases i with _ | j
          · rw [List.getD_cons_zero]
            exact ⟨read_reg m TIFR1_ADDR, rfl, hv⟩
          · rw [List.getD_cons_succ]
            exact hpre j (by simpa using hi)
        · unfold writesOf at hwr ⊢
          rw [List.filterMap_cons]
          exact hwr
    · rw [if_neg hv] at h
      injection h with h
      injection h with h1 h2
      subst h1 h2
      refine ⟨by simp, ?_, ⟨read_reg m TIFR1_ADDR, by simp, hv, rfl⟩, ?_, by simp [writesOf]⟩
      · intro e he
        rcases List.mem_cons.mp he with rfl | he2
        · exact ⟨read_reg m TIFR1_ADDR, rfl⟩
        · exact absurd he2 (by simp)
      · intro i hi
        simp at hi

/-- Inversion of a successful `delay_1000ms` run: the poll succeeded, the
final state is the `set_bit(TIFR1_ADDR, 0)` of the loop-exit state, and
the trace is the setup writes, the poll reads, and the read/write pair of
the clearing `set_bit`. -/
theorem delay_inv (m : Mem) (fuel : Nat) (m' : Mem) (evs : List Ev)
    (h : delay_1000ms m fuel = some (m', evs)) :
    ∃ m5 pevs,
      pollT (write_reg (write_reg (write_reg (write_reg m TCCR1A_ADDR 0x00)
        TCCR1B_ADDR 0x04) TCNT1L_ADDR 0xDB) TCNT1H_ADDR 0x0B) fuel = some (m5, pevs) ∧
      m' = (set_bit m5 TIFR1_ADDR 0).1 ∧
      evs = (setupEvs ++ pevs) ++ [Ev.rd TIFR1_ADDR (read_reg m5 TIFR1_ADDR),
        Ev.wr TIFR1_ADDR ((read_reg m5 TIFR1_ADDR ||| 1 <<< 0) % 256)] := by
  unfold delay_1000ms at h
  rcases hp : pollT (write_reg (write_reg (write_reg (write_reg m TCCR1A_ADDR 0x00)
      TCCR1B_ADDR 0x04) TCNT1L_ADDR 0xDB) TCNT1H_ADDR 0x0B) fuel with _ | p
  · simp only [hp] at h
    exact absurd h (by simp)
  · obtain ⟨m5, pevs⟩ := p
    simp only [hp] at h
    injection h with h
    injection h with h1 h2
    exact ⟨m5, pevs, rfl, h1.symm, h2.symm⟩

/-- The byte value the loop-exit `set_bit` writes back to TIFR1, and the
resulting register value, computed pointwise. -/
theorem set_bit_tifr (m5 : Mem) :
    (set_bit m5 TIFR1_ADDR 0).1 TIFR1_ADDR
        = ((m5 TIFR1_ADDR % 256) &&& (255 ^^^ ((read_reg m5 TIFR1_ADDR ||| 1 <<< 0) % 256))) % 256
      ∧ (∀ a, a ≠ TIFR1_ADDR → (set_bit m5 TIFR1_ADDR 0).1 a = m5 a) := by
  constructor
  · have hsb : (set_bit m5 TIFR1_ADDR 0).1
        = store m5 TIFR1_ADDR ((m5 TIFR1_ADDR % 256)
            &&& (255 ^^^ ((read_reg m5 TIFR1_ADDR ||| 1 <<< 0) % 256))) := rfl
    rw [hsb, store_self]
  · intro a ha
    have hsb : (set_bit m5 TIFR1_ADDR 0).1
        = store m5 TIFR1_ADDR ((m5 TIFR1_ADDR % 256)
            &&& (255 ^^^ ((read_reg m5 TIFR1_ADDR ||| 1 <<< 0) % 256))) := rfl
    rw [hsb]
    exact store_ne _ _ ha

/-! ## Trace-level lemmas -/

theorem writesOf_delayTrace (u : Nat) :
    writesOf (delayTrace u) = [(TCCR1A_ADDR, 0x00), (TCCR1B_ADDR, 0x04),
      (TCNT1L_ADDR, 0xDB), (TCNT1H_ADDR, 0x0B), (TIFR1_ADDR, u ||| 1)] := by
  unfold delayTrace
  rw [writesOf_append, writesOf_append, writesOf_append, writesOf_replicate_rd]
  rfl

theorem rdCount_delayTrace (u : Nat) : rdCount (delayTrace u) = 62503 := by
  unfold delayTrace
  rw [rdCount_append, rdCount_append, rdCount_append, rdCount_replicate_rd]
  norm_num [rdCount, setupEvs]

theorem delayTrace_getLast (u : Nat) :
    (delayTrace u).getLast? = some (Ev.wr TIFR1_ADDR (u ||| 1)) := by
  unfold delayTrace
  rw [getLast?_append_pair]

/-- The configuration/preload writes of a trace: its write events to
registers other than the flag register. -/
def cfgWrites (evs : List Ev) : List (Nat × Nat) :=
  (writesOf evs).filter (fun p => p.1 != TIFR1_ADDR)

theorem cfgWrites_delayTrace (u : Nat) :
    cfgWrites (delayTrace u) = [(TCCR1A_ADDR, 0x00), (TCCR1B_ADDR, 0x04),
      (TCNT1L_ADDR, 0xDB), (TCNT1H_ADDR, 0x0B)] := by
  unfold cfgWrites
  rw [writesOf_delayTrace]
  rfl

/-- A register file with a stale overflow flag (TIFR1 bit 0 already set),
on which `delay_1000ms` returns after a single poll. -/
def mStale : Mem := fun _ => 1

/-- The final register file of `delay_1000ms` on `mStale` with fuel 1. -/
def mStaleFinal : Mem :=
  (set_bit (write_reg (write_reg (write_reg (write_reg mStale TCCR1A_ADDR 0x00)
    TCCR1B_ADDR 0x04) TCNT1L_ADDR 0xDB) TCNT1H_ADDR 0x0B) TIFR1_ADDR 0).1

/-- The event trace of `delay_1000ms` on `mStale` with fuel 1. -/
def mStaleEvs : List Ev :=
  [Ev.wr TCCR1A_ADDR 0x00, Ev.wr TCCR1B_ADDR 0x04, Ev.wr TCNT1L_ADDR 0xDB,
   Ev.wr TCNT1H_ADDR 0x0B, Ev.rd TIFR1_ADDR 1, Ev.rd TIFR1_ADDR 1,
   Ev.wr TIFR1_ADDR 1]

/-- A register file with another TIFR1 status bit (bit 5) pending and the
overflow flag clear. -/
def mPend : Mem := fun a => if a = TIFR1_ADDR then 0x20 else 0

/-! ## Claim C1 -/

/-- **C1 (counterexample)** The preload bytes `delay_1000ms` writes are
0xDB (low) and 0x0B (high), which form 0x0BDB = 3035, not
0x10000 − 62500 = 0x0BDC = 3036 as the claim states. -/
theorem delay_preload_cx :
    (delay_1000ms mStale 1).map (fun p => writesOf p.2)
      = some [(TCCR1A_ADDR, 0x00), (TCCR1B_ADDR, 0x04), (TCNT1L_ADDR, 0xDB),
        (TCNT1H_ADDR, 0x0B), (TIFR1_ADDR, 0x01)] ∧
    0xDB + 256 * 0x0B ≠ 0x10000 - 62500 :=
  ⟨by decide, by decide⟩

/-- **C1 (amended)** The 16-bit preload written into the counter byte
registers is 0x0BDB = 0x10000 − 62501, one less than 0x10000 − ticks for
ticks = 62500; accordingly a delay from a flag-clear state busy-waits for
62501 prescaled ticks (62502 poll reads plus the final `set_bit` read:
62503 read events in total). -/
theorem delay_preload_amended (m : Mem) (hflag : m TIFR1_ADDR &&& 1 = 0) :
    ∃ m' evs, delay_1000ms m 62502 = some (m', evs) ∧
      (writesOf evs).getD 2 (0, 0) = (TCNT1L_ADDR, 0xDB) ∧
      (writesOf evs).getD 3 (0, 0) = (TCNT1H_ADDR, 0x0B) ∧
      0xDB + 256 * 0x0B = 0x10000 - 62501 ∧
      rdCount evs = 62503 := by
  obtain ⟨m', hrun, _⟩ := delay_spec m hflag
  refine ⟨m', _, hrun, ?_, ?_, by norm_num, rdCount_delayTrace _⟩
  · rw [writesOf_delayTrace]
    rfl
  · rw [writesOf_delayTrace]
    rfl

/-- Witness for `delay_preload_amended` at the all-zero register file. -/
theorem delay_preload_amended_witness :
    ((fun _ => 0 : Mem) TIFR1_ADDR &&& 1 = 0) ∧
    (∃ m' evs, delay_1000ms (fun _ => 0) 62502 = some (m', evs) ∧
      (writesOf evs).getD 2 (0, 0) = (TCNT1L_ADDR, 0xDB) ∧
      (writesOf evs).getD 3 (0, 0) = (TCNT1H_ADDR, 0x0B) ∧
      0xDB + 256 * 0x0B = 0x10000 - 62501 ∧
      rdCount evs = 62503) :=
  ⟨by decide, delay_preload_amended (fun _ => 0) (by decide)⟩

/-! ## Claim C2 -/

/-- **C2** Every successful `delay_1000ms` run performs, in order: the two
control-register writes (normal mode, prescaler 256), the two preload
writes, a nonempty sequence of TIFR1 poll reads of which every one before
the last observes bit 0 clear and the last observes bit 0 set, and
finally the read/write pair of the clearing `set_bit`; on return the
overflow flag bit is clear. -/
theorem delay_steps_in_order (m : Mem) (fuel : Nat) (m' : Mem) (evs : List Ev)
    (h : delay_1000ms m fuel = some (m', evs)) :
    ∃ polls v,
      evs = (setupEvs ++ polls) ++ [Ev.rd TIFR1_ADDR v, Ev.wr TIFR1_ADDR ((v ||| 1) % 256)] ∧
      setupEvs = [Ev.wr TCCR1A_ADDR 0x00, Ev.wr TCCR1B_ADDR 0x04,
        Ev.wr TCNT1L_ADDR 0xDB, Ev.wr TCNT1H_ADDR 0x0B] ∧
      polls ≠ [] ∧
      (∀ e ∈ polls, ∃ u, e = Ev.rd TIFR1_ADDR u) ∧
      polls.getLast? = some (Ev.rd TIFR1_ADDR v) ∧
      ¬ v &&& 1 = 0 ∧
      (∀ i, i + 1 < polls.length →
        ∃ u, polls.getD i (Ev.rd 0 0) = Ev.rd TIFR1_ADDR u ∧ u &&& 1 = 0) ∧
      m' TIFR1_ADDR &&& 1 = 0 := by
  obtain ⟨m5, pevs, hp, hm', hevs⟩ := delay_inv m fuel m' evs h
  obtain ⟨hne, hrd, ⟨w, hlast, hw, hread⟩, hpre, hwr⟩ := pollT_shape fuel _ m5 pevs hp
  refine ⟨pevs, w, ?_, rfl, hne, hrd, hlast, hw, hpre, ?_⟩
  · rw [hevs, hread]
    rfl
  · rw [hm']
    have h0 : (set_bit m5 TIFR1_ADDR 0).1 TIFR1_ADDR
        = ((m5 TIFR1_ADDR % 256) &&& (255 ^^^ (((m5 TIFR1_ADDR % 256) ||| 1) % 256))) % 256 :=
      (set_bit_tifr m5).1
    rw [h0, clear_write_zero _ (Nat.mod_lt _ (by norm_num))]
    decide

/-- Witness for `delay_steps_in_order` on the stale-flag register file. -/
theorem delay_steps_in_order_witness :
    delay_1000ms mStale 1 = some (mStaleFinal, mStaleEvs) ∧
    (∃ polls v,
      mStaleEvs = (setupEvs ++ polls) ++ [Ev.rd TIFR1_ADDR v, Ev.wr TIFR1_ADDR ((v ||| 1) % 256)] ∧
      setupEvs = [Ev.wr TCCR1A_ADDR 0x00, Ev.wr TCCR1B_ADDR 0x04,
        Ev.wr TCNT1L_ADDR 0xDB, Ev.wr TCNT1H_ADDR 0x0B] ∧
      polls ≠ [] ∧
      (∀ e ∈ polls, ∃ u, e = Ev.rd TIFR1_ADDR u) ∧
      polls.getLast? = some (Ev.rd TIFR1_ADDR v) ∧
      ¬ v &&& 1 = 0 ∧
      (∀ i, i + 1 < polls.length →
        ∃ u, polls.getD i (Ev.rd 0 0) = Ev.rd TIFR1_ADDR u ∧ u &&& 1 = 0) ∧
      mStaleFinal TIFR1_ADDR &&& 1 = 0) :=
  ⟨rfl, delay_steps_in_order mStale 1 mStaleFinal mStaleEvs rfl⟩

/-! ## Claim C9 -/

/-- **C9** In the write trace of any successful `delay_1000ms` call, the
counter low-byte store (address 0x84, value 0xDB) strictly precedes the
high-byte store (address 0x85, value 0x0B): the write trace is exactly
the two control writes, the low write, the high write, and the final
flag write. -/
theorem delay_low_before_high (m : Mem) (fuel : Nat) (m' : Mem) (evs : List Ev)
    (h : delay_1000ms m fuel = some (m', evs)) :
    ∃ w, writesOf evs = [(TCCR1A_ADDR, 0x00), (TCCR1B_ADDR, 0x04),
        (TCNT1L_ADDR, 0xDB), (TCNT1H_ADDR, 0x0B), (TIFR1_ADDR, w)] ∧
      ∃ i j, i < j ∧ (writesOf evs).getD i (0, 0) = (TCNT1L_ADDR, 0xDB) ∧
        (writesOf evs).getD j (0, 0) = (TCNT1H_ADDR, 0x0B) := by
  obtain ⟨m5, pevs, hp, hm', hevs⟩ := delay_inv m fuel m' evs h
  obtain ⟨_, _, _, _, hwr⟩ := pollT_shape fuel _ m5 pevs hp
  have hw : writesOf evs = [(TCCR1A_ADDR, 0x00), (TCCR1B_ADDR, 0x04),
      (TCNT1L_ADDR, 0xDB), (TCNT1H_ADDR, 0x0B),
      (TIFR1_ADDR, (read_reg m5 TIFR1_ADDR ||| 1 <<< 0) % 256)] := by
    rw [hevs, writesOf_append, writesOf_append, hwr]
    rfl
  refine ⟨_, hw, 2, 3, by norm_num, ?_, ?_⟩
  · rw [hw]
    rfl
  · rw [hw]
    rfl

/-- Witness for `delay_low_before_high` on the stale-flag register file. -/
theorem delay_low_before_high_witness :
    delay_1000ms mStale 1 = some (mStaleFinal, mStaleEvs) ∧
    (∃ w, writesOf mStaleEvs = [(TCCR1A_ADDR, 0x00), (TCCR1B_ADDR, 0x04),
        (TCNT1L_ADDR, 0xDB), (TCNT1H_ADDR, 0x0B), (TIFR1_ADDR, w)] ∧
      ∃ i j, i < j ∧ (writesOf mStaleEvs).getD i (0, 0) = (TCNT1L_ADDR, 0xDB) ∧
        (writesOf mStaleEvs).getD j (0, 0) = (TCNT1H_ADDR, 0x0B)) :=
  ⟨rfl, delay_low_before_high mStale 1 mStaleFinal mStaleEvs rfl⟩

/-! ## Claim C3 -/

/-- **C3 (counterexample)** From a state in which another TIFR1 status
bit (bit 5) is pending, the clearing write of `delay_1000ms` stores the
byte 0x21 — bit 0 and bit 5 both set — not the byte 0x01 the claim
states, and under write-1-to-clear semantics bit 5 of the register is
cleared by it (it was 1 before the call and 0 after). -/
theorem delay_flag_clear_cx :
    ∃ m', delay_1000ms mPend 62502 = some (m', delayTrace 0x20) ∧
      (delayTrace 0x20).getLast? = some (Ev.wr TIFR1_ADDR 0x21) ∧
      (0x21 : Nat) ≠ 0x01 ∧
      mPend TIFR1_ADDR &&& 0x20 = 0x20 ∧
      m' TIFR1_ADDR &&& 0x20 = 0 := by
  obtain ⟨m', hrun, _, _, _, _, h36, _⟩ := delay_spec mPend (by decide)
  refine ⟨m', hrun, ?_, by decide, by decide, ?_⟩
  · rw [delayTrace_getLast]
    decide
  · rw [h36]
    decide

/-- **C3 (amended)** After the overflow flag is observed set,
`delay_1000ms` clears it by a read-modify-write: it writes back the byte
`(v ||| 1)` where `v` is the value just read from TIFR1 (whose bit 0 is
set).  Bit 0 of the written byte is 1; the byte equals 0x01 exactly when
no other status bit was pending (`v = 1`); and under write-1-to-clear
semantics the write clears every status bit that was set, leaving
TIFR1 = 0 — so other pending status bits are affected whenever present. -/
theorem delay_flag_clear_amended (m : Mem) (fuel : Nat) (m' : Mem) (evs : List Ev)
    (h : delay_1000ms m fuel = some (m', evs)) :
    ∃ v, ¬ v &&& 1 = 0 ∧
      evs.getLast? = some (Ev.wr TIFR1_ADDR ((v ||| 1) % 256)) ∧
      ((v ||| 1) % 256) &&& 1 = 1 ∧
      (v &&& 254 = 0 → (v ||| 1) % 256 = 1) ∧
      m' TIFR1_ADDR = 0 := by
  obtain ⟨m5, pevs, hp, hm', hevs⟩ := delay_inv m fuel m' evs h
  obtain ⟨_, _, ⟨w, _, hw, hread⟩, _, _⟩ := pollT_shape fuel _ m5 pevs hp
  have hwlt : w < 256 := by
    rw [← hread]
    exact Nat.mod_lt _ (by norm_num)
  refine ⟨w, hw, ?_, ?_, ?_, ?_⟩
  · rw [hevs, hread]
    exact getLast?_append_pair _ _ _
  · rw [mod256_and_one, or_one_and_one]
  · intro h254
    have hword : ∀ x, x < 256 → ¬ x &&& 1 = 0 → x &&& 254 = 0 → (x ||| 1) % 256 = 1 := by decide
    exact hword w hwlt hw h254
  · rw [hm']
    have h0 : (set_bit m5 TIFR1_ADDR 0).1 TIFR1_ADDR
        = ((m5 TIFR1_ADDR % 256) &&& (255 ^^^ (((m5 TIFR1_ADDR % 256) ||| 1) % 256))) % 256 :=
      (set_bit_tifr m5).1
    rw [h0, clear_write_zero _ (Nat.mod_lt _ (by norm_num))]

/-- Witness for `delay_flag_clear_amended` on the stale-flag register file. -/
theorem delay_flag_clear_amended_witness :
    delay_1000ms mStale 1 = some (mStaleFinal, mStaleEvs) ∧
    (∃ v, ¬ v &&& 1 = 0 ∧
      mStaleEvs.getLast? = some (Ev.wr TIFR1_ADDR ((v ||| 1) % 256)) ∧
      ((v ||| 1) % 256) &&& 1 = 1 ∧
      (v &&& 254 = 0 → (v ||| 1) % 256 = 1) ∧
      mStaleFinal TIFR1_ADDR = 0) :=
  ⟨rfl, delay_flag_clear_amended mStale 1 mStaleFinal mStaleEvs rfl⟩

/-! ## Claim C5 -/

/-- **C5** Two successive `delay_1000ms` calls from a flag-clear state
produce delays of equal duration: both runs perform 62503 read events
(62501 polls observing the flag clear, one observing it set, and the
`set_bit` read); the first call returns with the overflow flag clear, so
the second does not return early; and the configuration/preload writes
of the two calls are identical. -/
theorem delay_rearm (m : Mem) (hflag : m TIFR1_ADDR &&& 1 = 0) :
    ∃ m1 e1 m2 e2,
      delay_1000ms m 62502 = some (m1, e1) ∧
      m1 TIFR1_ADDR &&& 1 = 0 ∧
      delay_1000ms m1 62502 = some (m2, e2) ∧
      rdCount e1 = 62503 ∧ rdCount e2 = 62503 ∧
      cfgWrites e1 = cfgWrites e2 := by
  obtain ⟨m1, h1run, _, _, _, _, h1t, _⟩ := delay_spec m hflag
  have hflag1 : m1 TIFR1_ADDR &&& 1 = 0 := by
    rw [h1t]
    decide
  obtain ⟨m2, h2run, _⟩ := delay_spec m1 hflag1
  refine ⟨m1, _, m2, _, h1run, hflag1, h2run,
    rdCount_delayTrace _, rdCount_delayTrace _, ?_⟩
  rw [cfgWrites_delayTrace, cfgWrites_delayTrace]

/-- Witness for `delay_rearm` at the all-zero register file. -/
theorem delay_rearm_witness :
    ((fun _ => 0 : Mem) TIFR1_ADDR &&& 1 = 0) ∧
    (∃ m1 e1 m2 e2,
      delay_1000ms (fun _ => 0) 62502 = some (m1, e1) ∧
      m1 TIFR1_ADDR &&& 1 = 0 ∧
      delay_1000ms m1 62502 = some (m2, e2) ∧
      rdCount e1 = 62503 ∧ rdCount e2 = 62503 ∧
      cfgWrites e1 = cfgWrites e2) :=
  ⟨by decide, delay_rearm (fun _ => 0) (by decide)⟩

/-! ## Claim C7 -/

/-- **C7** `delay_1000ms` has no error path: under the hardware model in
which the prescaled counter increments and sets the overflow flag on
wraparound, a call from a flag-clear state returns (fuel 62502 polls
suffices); and if the observed flag values never have bit 0 set, the
polling loop never exits, for any number of iterations — the routine
blocks rather than detecting or reporting the condition. -/
theorem delay_no_error :
    (∀ m : Mem, m TIFR1_ADDR &&& 1 = 0 → ¬ delay_1000ms m 62502 = none) ∧
    (∀ r : Nat → Nat, (∀ n, r n &&& 1 = 0) → ∀ i f, pollO r i f = none) := by
  constructor
  · intro m hm hn
    obtain ⟨m', hrun, _⟩ := delay_spec m hm
    rw [hrun] at hn
    exact absurd hn (by simp)
  · intro r hr i f
    induction f generalizing i with
    | zero => rfl
    | succ n ih =>
      unfold pollO
      rw [if_pos (hr i)]
      exact ih (i + 1)

/-- Witness for `delay_no_error` at concrete inputs. -/
theorem delay_no_error_witness :
    ((fun _ => 0 : Mem) TIFR1_ADDR &&& 1 = 0) ∧
    ¬ delay_1000ms (fun _ => 0) 62502 = none ∧
    (∀ n, (fun _ => 0 : Nat → Nat) n &&& 1 = 0) ∧
    pollO (fun _ => 0) 0 5 = none :=
  ⟨by decide, delay_no_error.1 _ (by decide), fun _ => by simp,
    delay_no_error.2 _ (fun _ => by simp) 0 5⟩

/-! ## The main-loop toggle cycle -/

theorem mod256_idem (x : Nat) : x % 256 % 256 = x % 256 :=
  Nat.mod_mod_of_dvd x dvd_rfl

theorem portb_set_fact : ∀ v, v < 256 → ((v ||| 32) % 256).testBit 5 = true := by decide

theorem portb_clear_fact : ∀ v, v < 256 →
    ((v &&& (0xFFFFFFFF ^^^ 32)) % 256).testBit 5 = false := by decide

theorem portb_roundtrip_fact : ∀ v, v < 256 → v.testBit 5 = false →
    (((v ||| 32) % 256) &&& (0xFFFFFFFF ^^^ 32)) % 256 = v := by decide

/-- Pointwise description of `set_bit(PORTB_ADDR, 5)`. -/
theorem set_bit_portb (m : Mem) :
    (set_bit m PORTB_ADDR 5).1 PORTB_ADDR = ((m PORTB_ADDR % 256) ||| 32) % 256 ∧
    (∀ a, a ≠ PORTB_ADDR → (set_bit m PORTB_ADDR 5).1 a = m a) ∧
    (set_bit m PORTB_ADDR 5).2 = [Ev.rd PORTB_ADDR (m PORTB_ADDR % 256),
      Ev.wr PORTB_ADDR (((m PORTB_ADDR % 256) ||| 32) % 256)] := by
  have hs : (set_bit m PORTB_ADDR 5).1
      = store m PORTB_ADDR ((m PORTB_ADDR % 256) ||| 32) := rfl
  refine ⟨?_, ?_, rfl⟩
  · rw [hs, store_self]
  · intro a ha
    rw [hs]
    exact store_ne _ _ ha

/-- Pointwise description of `clear_bit(PORTB_ADDR, 5)`. -/
theorem clear_bit_portb (m : Mem) :
    (clear_bit m PORTB_ADDR 5).1 PORTB_ADDR
      = ((m PORTB_ADDR % 256) &&& (0xFFFFFFFF ^^^ 32)) % 256 ∧
    (∀ a, a ≠ PORTB_ADDR → (clear_bit m PORTB_ADDR 5).1 a = m a) ∧
    (clear_bit m PORTB_ADDR 5).2 = [Ev.rd PORTB_ADDR (m PORTB_ADDR % 256),
      Ev.wr PORTB_ADDR (((m PORTB_ADDR % 256) &&& (0xFFFFFFFF ^^^ 32)) % 256)] := by
  have hs : (clear_bit m PORTB_ADDR 5).1
      = store m PORTB_ADDR ((m PORTB_ADDR % 256) &&& (0xFFFFFFFF ^^^ 32)) := rfl
  refine ⟨?_, ?_, rfl⟩
  · rw [hs, store_self]
  · intro a ha
    rw [hs]
    exact store_ne _ _ ha

/-- The event trace of one full toggle cycle that starts with PORTB byte
`p` (already truncated) and TIFR1 byte `u`: set the pin, wait, clear the
pin, wait. -/
def cycleTrace (p u : Nat) : List Ev :=
  (([Ev.rd PORTB_ADDR p, Ev.wr PORTB_ADDR ((p ||| 32) % 256)]
    ++ delayTrace u)
    ++ [Ev.rd PORTB_ADDR ((p ||| 32) % 256),
        Ev.wr PORTB_ADDR (((p ||| 32) % 256 &&& (0xFFFFFFFF ^^^ 32)) % 256)])
    ++ delayTrace 0

theorem cycle_spec (m : Mem) (hflag : m TIFR1_ADDR &&& 1 = 0) :
    ∃ m', cycle m 62502
        = some (m', cycleTrace (m PORTB_ADDR % 256) (m TIFR1_ADDR % 256)) ∧
      m' TCCR1A_ADDR = 0 ∧ m' TCCR1B_ADDR = 4 ∧ m' TCNT1L_ADDR = 0 ∧
      m' TCNT1H_ADDR = 0 ∧ m' TIFR1_ADDR = 0 ∧
      m' PORTB_ADDR = (((m PORTB_ADDR % 256) ||| 32) % 256 &&& (0xFFFFFFFF ^^^ 32)) % 256 ∧
      (∀ a, a ≠ PORTB_ADDR → a ≠ TCCR1A_ADDR → a ≠ TCCR1B_ADDR → a ≠ TCNT1L_ADDR →
        a ≠ TCNT1H_ADDR → a ≠ TIFR1_ADDR → m' a = m a) := by
  obtain ⟨hsP, hsFr, hsEv⟩ := set_bit_portb m
  have hs36 : (set_bit m PORTB_ADDR 5).1 TIFR1_ADDR = m TIFR1_ADDR :=
    hsFr _ (by simp [TIFR1_ADDR, PORTB_ADDR])
  have hflag1 : (set_bit m PORTB_ADDR 5).1 TIFR1_ADDR &&& 1 = 0 := by
    rw [hs36]
    exact hflag
  obtain ⟨m2, h2run, h2a, h2b, h2l, h2h, h2t, h2fr⟩ :=
    delay_spec (set_bit m PORTB_ADDR 5).1 hflag1
  rw [hs36] at h2run
  have hm2P : m2 PORTB_ADDR = ((m PORTB_ADDR % 256) ||| 32) % 256 := by
    rw [h2fr PORTB_ADDR (by simp [PORTB_ADDR, TCCR1A_ADDR])
      (by simp [PORTB_ADDR, TCCR1B_ADDR]) (by simp [PORTB_ADDR, TCNT1L_ADDR])
      (by simp [PORTB_ADDR, TCNT1H_ADDR]) (by simp [PORTB_ADDR, TIFR1_ADDR]), hsP]
  obtain ⟨hcP, hcFr, hcEv⟩ := clear_bit_portb m2
  have hc36 : (clear_bit m2 PORTB_ADDR 5).1 TIFR1_ADDR = m2 TIFR1_ADDR :=
    hcFr _ (by simp [TIFR1_ADDR, PORTB_ADDR])
  have hflag2 : (clear_bit m2 PORTB_ADDR 5).1 TIFR1_ADDR &&& 1 = 0 := by
    rw [hc36, h2t]
    decide
  obtain ⟨m4, h4run, h4a, h4b, h4l, h4h, h4t, h4fr⟩ :=
    delay_spec (clear_bit m2 PORTB_ADDR 5).1 hflag2
  have hc36z : (clear_bit m2 PORTB_ADDR 5).1 TIFR1_ADDR % 256 = 0 := by
    rw [hc36, h2t]
  rw [hc36z] at h4run
  have hm4P : m4 PORTB_ADDR
      = (((m PORTB_ADDR % 256) ||| 32) % 256 &&& (0xFFFFFFFF ^^^ 32)) % 256 := by
    rw [h4fr PORTB_ADDR (by simp [PORTB_ADDR, TCCR1A_ADDR])
      (by simp [PORTB_ADDR, TCCR1B_ADDR]) (by simp [PORTB_ADDR, TCNT1L_ADDR])
      (by simp [PORTB_ADDR, TCNT1H_ADDR]) (by simp [PORTB_ADDR, TIFR1_ADDR]),
      hcP, hm2P, mod256_idem]
  refine ⟨m4, ?_, h4a, h4b, h4l, h4h, h4t, hm4P, ?_⟩
  · unfold cycle
    simp only [h2run, h4run]
    unfold cycleTrace
    rw [hsEv, hcEv, hm2P, mod256_idem]
  · intro a haP ha80 ha81 ha84 ha85 ha36
    rw [h4fr a ha80 ha81 ha84 ha85 ha36, hcFr a haP,
      h2fr a ha80 ha81 ha84 ha85 ha36, hsFr a haP]

/-! ## Claim C6 -/

theorem writesOf_cycleTrace (p u : Nat) :
    writesOf (cycleTrace p u)
      = ([(PORTB_ADDR, (p ||| 32) % 256)]
        ++ [(TCCR1A_ADDR, 0x00), (TCCR1B_ADDR, 0x04), (TCNT1L_ADDR, 0xDB),
            (TCNT1H_ADDR, 0x0B), (TIFR1_ADDR, u ||| 1)]
        ++ [(PORTB_ADDR, ((p ||| 32) % 256 &&& (0xFFFFFFFF ^^^ 32)) % 256)])
        ++ [(TCCR1A_ADDR, 0x00), (TCCR1B_ADDR, 0x04), (TCNT1L_ADDR, 0xDB),
            (TCNT1H_ADDR, 0x0B), (TIFR1_ADDR, 0 ||| 1)] := by
  unfold cycleTrace
  rw [writesOf_append, writesOf_append, writesOf_append,
    writesOf_delayTrace, writesOf_delayTrace]
  rfl

theorem portb_not_in_delay_writes (u : Nat) :
    PORTB_ADDR ∉ (writesOf (delayTrace u)).map Prod.fst := by
  rw [writesOf_delayTrace]
  simp [PORTB_ADDR, TCCR1A_ADDR, TCCR1B_ADDR, TCNT1L_ADDR, TCNT1H_ADDR, TIFR1_ADDR]

/-- A register file in hardware reset state with the pin configured as
output: every register is 0 except the data-direction register, whose
bit 5 is set. -/
def mReset : Mem := fun a => if a = DDRB_ADDR then 32 else 0

/-- **C6 (counterexample)** Starting from the reset state with the pin
configured as output and low, one full toggle cycle changes a register
other than the data-direction and output-port registers: TCCR1B is 0
before the cycle and 4 after it (and the cycle's trace also writes the
five timer registers). -/
theorem cycle_frame_cx :
    ∃ p, cycle mReset 62502 = some p ∧
      p.1 TCCR1B_ADDR = 4 ∧ mReset TCCR1B_ADDR = 0 ∧ (4 : Nat) ≠ 0 ∧
      (TCCR1B_ADDR, 0x04) ∈ writesOf p.2 := by
  obtain ⟨m', hrun, _, hb, _⟩ := cycle_spec mReset (by decide)
  refine ⟨(m', _), hrun, hb, by decide, by decide, ?_⟩
  rw [writesOf_cycleTrace]
  decide

/-- **C6 (amended)** For a cycle after the first — one whose start state
already has the post-delay timer configuration (TCCR1A = 0, TCCR1B = 4,
counter 0, flag clear) and the pin low — every register is unchanged
across the cycle; during the cycle the only registers written are the
output port and the five timer registers (never the data-direction
register); the pin is high after the set and no delay write touches the
port, and it is low again after the clear. -/
theorem cycle_frame_amended (m : Mem)
    (h80 : m TCCR1A_ADDR = 0) (h81 : m TCCR1B_ADDR = 4)
    (h84 : m TCNT1L_ADDR = 0) (h85 : m TCNT1H_ADDR = 0) (h36 : m TIFR1_ADDR = 0)
    (hp : m PORTB_ADDR < 256) (hp5 : (m PORTB_ADDR).testBit 5 = false) :
    ∃ m', cycle m 62502 = some (m', cycleTrace (m PORTB_ADDR % 256) 0) ∧
      (∀ a, m' a = m a) ∧
      (∀ q ∈ writesOf (cycleTrace (m PORTB_ADDR % 256) 0),
        q.1 ∈ [PORTB_ADDR, TCCR1A_ADDR, TCCR1B_ADDR, TCNT1L_ADDR,
          TCNT1H_ADDR, TIFR1_ADDR]) ∧
      DDRB_ADDR ∉ (writesOf (cycleTrace (m PORTB_ADDR % 256) 0)).map Prod.fst ∧
      (((m PORTB_ADDR % 256) ||| 32) % 256).testBit 5 = true ∧
      (∀ u, PORTB_ADDR ∉ (writesOf (delayTrace u)).map Prod.fst) ∧
      ((((m PORTB_ADDR % 256) ||| 32) % 256 &&& (0xFFFFFFFF ^^^ 32)) % 256).testBit 5
        = false := by
  have hu0 : m TIFR1_ADDR % 256 = 0 := by rw [h36]
  have hflag : m TIFR1_ADDR &&& 1 = 0 := by
    rw [h36]
    decide
  obtain ⟨m', hrun, ha, hb, hl, hh, ht, hP, hfr⟩ := cycle_spec m hflag
  rw [hu0] at hrun
  have hmp : m PORTB_ADDR % 256 = m PORTB_ADDR := Nat.mod_eq_of_lt hp
  refine ⟨m', hrun, ?_, ?_, ?_, portb_set_fact _ (Nat.mod_lt _ (by norm_num)),
    portb_not_in_delay_writes,
    portb_clear_fact _ (Nat.mod_lt _ (by norm_num))⟩
  · intro a
    by_cases haP : a = PORTB_ADDR
    · subst haP
      rw [hP, hmp, portb_roundtrip_fact _ hp hp5]
    · by_cases ha80 : a = TCCR1A_ADDR
      · subst ha80
        rw [ha, h80]
      · by_cases ha81 : a = TCCR1B_ADDR
        · subst ha81
          rw [hb, h81]
        · by_cases ha84 : a = TCNT1L_ADDR
          · subst ha84
            rw [hl, h84]
          · by_cases ha85 : a = TCNT1H_ADDR
            · subst ha85
              rw [hh, h85]
            · by_cases ha36 : a = TIFR1_ADDR
              · subst ha36
                rw [ht, h36]
              · exact hfr a haP ha80 ha81 ha84 ha85 ha36
  · intro q hq
    rw [writesOf_cycleTrace] at hq
    simp only [List.mem_append, List.mem_cons, List.not_mem_nil, or_false] at hq
    rcases hq with ((rfl | rfl | rfl | rfl | rfl | rfl | rfl) | rfl) |
      (rfl | rfl | rfl | rfl | rfl) <;> simp
  · rw [writesOf_cycleTrace]
    simp [DDRB_ADDR, PORTB_ADDR, TCCR1A_ADDR, TCCR1B_ADDR, TCNT1L_ADDR,
      TCNT1H_ADDR, TIFR1_ADDR]

/-- Witness for `cycle_frame_amended` at a steady-state register file. -/
theorem cycle_frame_amended_witness :
    ((fun a => if a = TCCR1B_ADDR then 4 else 0 : Mem) TCCR1A_ADDR = 0 ∧
     (fun a => if a = TCCR1B_ADDR then 4 else 0 : Mem) TCCR1B_ADDR = 4 ∧
     (fun a => if a = TCCR1B_ADDR then 4 else 0 : Mem) TCNT1L_ADDR = 0 ∧
     (fun a => if a = TCCR1B_ADDR then 4 else 0 : Mem) TCNT1H_ADDR = 0 ∧
     (fun a => if a = TCCR1B_ADDR then 4 else 0 : Mem) TIFR1_ADDR = 0 ∧
     (fun a => if a = TCCR1B_ADDR then 4 else 0 : Mem) PORTB_ADDR < 256 ∧
     ((fun a => if a = TCCR1B_ADDR then 4 else 0 : Mem) PORTB_ADDR).testBit 5 = false) ∧
    (∃ m', cycle (fun a => if a = TCCR1B_ADDR then 4 else 0) 62502
        = some (m', cycleTrace ((fun a => if a = TCCR1B_ADDR then 4 else 0 : Mem)
            PORTB_ADDR % 256) 0) ∧
      (∀ a, m' a = (fun a => if a = TCCR1B_ADDR then 4 else 0 : Mem) a) ∧
      (∀ q ∈ writesOf (cycleTrace ((fun a => if a = TCCR1B_ADDR then 4 else 0 : Mem)
          PORTB_ADDR % 256) 0),
        q.1 ∈ [PORTB_ADDR, TCCR1A_ADDR, TCCR1B_ADDR, TCNT1L_ADDR,
          TCNT1H_ADDR, TIFR1_ADDR]) ∧
      DDRB_ADDR ∉ (writesOf (cycleTrace ((fun a => if a = TCCR1B_ADDR then 4 else 0 : Mem)
          PORTB_ADDR % 256) 0)).map Prod.fst ∧
      ((((fun a => if a = TCCR1B_ADDR then 4 else 0 : Mem) PORTB_ADDR % 256) ||| 32)
          % 256).testBit 5 = true ∧
      (∀ u, PORTB_ADDR ∉ (writesOf (delayTrace u)).map Prod.fst) ∧
      (((((fun a => if a = TCCR1B_ADDR then 4 else 0 : Mem) PORTB_ADDR % 256) ||| 32)
          % 256 &&& (0xFFFFFFFF ^^^ 32)) % 256).testBit 5 = false) :=
  ⟨⟨by decide, by decide, by decide, by decide, by decide, by decide, by decide⟩,
    cycle_frame_amended _ (by decide) (by decide) (by decide) (by decide) (by decide)
      (by decide) (by decide)⟩

/-! ## Claim C8 -/

/-- Pointwise description of `set_bit(DDRB_ADDR, 5)` (the `main`
initialisation). -/
theorem set_bit_ddrb (m : Mem) :
    (set_bit m DDRB_ADDR 5).1 DDRB_ADDR = ((m DDRB_ADDR % 256) ||| 32) % 256 ∧
    (∀ a, a ≠ DDRB_ADDR → (set_bit m DDRB_ADDR 5).1 a = m a) := by
  have hs : (set_bit m DDRB_ADDR 5).1
      = store m DDRB_ADDR ((m DDRB_ADDR % 256) ||| 32) := rfl
  constructor
  · rw [hs, store_self]
  · intro a ha
    rw [hs]
    exact store_ne _ _ ha

theorem ddrb_not_in_delay_writes (u : Nat) :
    DDRB_ADDR ∉ (writesOf (delayTrace u)).map Prod.fst := by
  rw [writesOf_delayTrace]
  simp [DDRB_ADDR, TCCR1A_ADDR, TCCR1B_ADDR, TCNT1L_ADDR, TCNT1H_ADDR, TIFR1_ADDR]

/-- Invariant of `main`'s loop: after the initialisation and any number
of half-iterations the run has not failed, the flag register is clear,
the data-direction register holds its configured value, and the port
bit 5 level alternates with the half-iteration parity. -/
theorem halfRun_inv (m : Mem) (hflag : m TIFR1_ADDR &&& 1 = 0) :
    ∀ n, ∃ s, halfRun m 62502 (n + 1) = some s ∧
      s TIFR1_ADDR = 0 ∧
      s DDRB_ADDR = ((m DDRB_ADDR % 256) ||| 32) % 256 ∧
      s PORTB_ADDR < 256 ∧
      (s PORTB_ADDR).testBit 5 = decide (n % 2 = 0) := by
  obtain ⟨hIset0, hIfr0⟩ := set_bit_ddrb m
  have hIset : (mainInit m).1 DDRB_ADDR = ((m DDRB_ADDR % 256) ||| 32) % 256 := hIset0
  have hIfr : ∀ a, a ≠ DDRB_ADDR → (mainInit m).1 a = m a := hIfr0
  intro n
  induction n with
  | zero =>
    have hm0T : (mainInit m).1 TIFR1_ADDR = m TIFR1_ADDR :=
      hIfr _ (by simp [TIFR1_ADDR, DDRB_ADDR])
    obtain ⟨hsP, hsFr, _⟩ := set_bit_portb (mainInit m).1
    have hflag1 : (set_bit (mainInit m).1 PORTB_ADDR 5).1 TIFR1_ADDR &&& 1 = 0 := by
      rw [hsFr _ (by simp [TIFR1_ADDR, PORTB_ADDR]), hm0T]
      exact hflag
    obtain ⟨sD, hDrun, _, _, _, _, hDt, hDfr⟩ :=
      delay_spec (set_bit (mainInit m).1 PORTB_ADDR 5).1 hflag1
    have hrun : halfRun m 62502 1 = some sD := by
      have h0 : halfRun m 62502 1 = halfStep (mainInit m).1 62502 0 := rfl
      rw [h0]
      unfold halfStep
      rw [if_pos (by norm_num)]
      show (delay_1000ms (set_bit (mainInit m).1 PORTB_ADDR 5).1 62502).map Prod.fst
          = some sD
      rw [hDrun]
      rfl
    refine ⟨sD, hrun, hDt, ?_, ?_, ?_⟩
    · rw [hDfr DDRB_ADDR (by simp [DDRB_ADDR, TCCR1A_ADDR])
        (by simp [DDRB_ADDR, TCCR1B_ADDR]) (by simp [DDRB_ADDR, TCNT1L_ADDR])
        (by simp [DDRB_ADDR, TCNT1H_ADDR]) (by simp [DDRB_ADDR, TIFR1_ADDR]),
        hsFr _ (by simp [DDRB_ADDR, PORTB_ADDR]), hIset]
    · rw [hDfr PORTB_ADDR (by simp [PORTB_ADDR, TCCR1A_ADDR])
        (by simp [PORTB_ADDR, TCCR1B_ADDR]) (by simp [PORTB_ADDR, TCNT1L_ADDR])
        (by simp [PORTB_ADDR, TCNT1H_ADDR]) (by simp [PORTB_ADDR, TIFR1_ADDR]), hsP]
      exact Nat.mod_lt _ (by norm_num)
    · rw [hDfr PORTB_ADDR (by simp [PORTB_ADDR, TCCR1A_ADDR])
        (by simp [PORTB_ADDR, TCCR1B_ADDR]) (by simp [PORTB_ADDR, TCNT1L_ADDR])
        (by simp [PORTB_ADDR, TCNT1H_ADDR]) (by simp [PORTB_ADDR, TIFR1_ADDR]), hsP,
        portb_set_fact _ (Nat.mod_lt _ (by norm_num))]
      decide
  | succ k ih =>
    obtain ⟨s, hrun, hsT, hsD, hsP256, hsP5⟩ := ih
    have hstep : halfRun m 62502 (k + 2)
        = halfStep s 62502 (k + 1) := by
      have h0 : halfRun m 62502 (k + 2)
          = (match halfRun m 62502 (k + 1) with
             | none => none
             | some mn => halfStep mn 62502 (k + 1)) := rfl
      rw [h0, hrun]
    by_cases hpar : (k + 1) % 2 = 0
    · obtain ⟨hsP, hsFr, _⟩ := set_bit_portb s
      have hflag1 : (set_bit s PORTB_ADDR 5).1 TIFR1_ADDR &&& 1 = 0 := by
        rw [hsFr _ (by simp [TIFR1_ADDR, PORTB_ADDR]), hsT]
        decide
      obtain ⟨sD, hDrun, _, _, _, _, hDt, hDfr⟩ :=
        delay_spec (set_bit s PORTB_ADDR 5).1 hflag1
      have hrun2 : halfRun m 62502 (k + 2) = some sD := by
        rw [hstep]
        unfold halfStep
        rw [if_pos hpar]
        show (delay_1000ms (set_bit s PORTB_ADDR 5).1 62502).map Prod.fst = some sD
        rw [hDrun]
        rfl
      refine ⟨sD, hrun2, hDt, ?_, ?_, ?_⟩
      · rw [hDfr DDRB_ADDR (by simp [DDRB_ADDR, TCCR1A_ADDR])
          (by simp [DDRB_ADDR, TCCR1B_ADDR]) (by simp [DDRB_ADDR, TCNT1L_ADDR])
          (by simp [DDRB_ADDR, TCNT1H_ADDR]) (by simp [DDRB_ADDR, TIFR1_ADDR]),
          hsFr _ (by simp [DDRB_ADDR, PORTB_ADDR]), hsD]
      · rw [hDfr PORTB_ADDR (by simp [PORTB_ADDR, TCCR1A_ADDR])
          (by simp [PORTB_ADDR, TCCR1B_ADDR]) (by simp [PORTB_ADDR, TCNT1L_ADDR])
          (by simp [PORTB_ADDR, TCNT1H_ADDR]) (by simp [PORTB_ADDR, TIFR1_ADDR]), hsP]
        exact Nat.mod_lt _ (by norm_num)
      · rw [hDfr PORTB_ADDR (by simp [PORTB_ADDR, TCCR1A_ADDR])
          (by simp [PORTB_ADDR, TCCR1B_ADDR]) (by simp [PORTB_ADDR, TCNT1L_ADDR])
          (by simp [PORTB_ADDR, TCNT1H_ADDR]) (by simp [PORTB_ADDR, TIFR1_ADDR]), hsP,
          portb_set_fact _ (Nat.mod_lt _ (by norm_num)), hpar]
        decide
    · obtain ⟨hcP, hcFr, _⟩ := clear_bit_portb s
      have hflag1 : (clear_bit s PORTB_ADDR 5).1 TIFR1_ADDR &&& 1 = 0 := by
        rw [hcFr _ (by simp [TIFR1_ADDR, PORTB_ADDR]), hsT]
        decide
      obtain ⟨sD, hDrun, _, _, _, _, hDt, hDfr⟩ :=
        delay_spec (clear_bit s PORTB_ADDR 5).1 hflag1
      have hrun2 : halfRun m 62502 (k + 2) = some sD := by
        rw [hstep]
        unfold halfStep
        rw [if_neg hpar]
        show (delay_1000ms (clear_bit s PORTB_ADDR 5).1 62502).map Prod.fst = some sD
        rw [hDrun]
        rfl
      refine ⟨sD, hrun2, hDt, ?_, ?_, ?_⟩
      · rw [hDfr DDRB_ADDR (by simp [DDRB_ADDR, TCCR1A_ADDR])
          (by simp [DDRB_ADDR, TCCR1B_ADDR]) (by simp [DDRB_ADDR, TCNT1L_ADDR])
          (by simp [DDRB_ADDR, TCNT1H_ADDR]) (by simp [DDRB_ADDR, TIFR1_ADDR]),
          hcFr _ (by simp [DDRB_ADDR, PORTB_ADDR]), hsD]
      · rw [hDfr PORTB_ADDR (by simp [PORTB_ADDR, TCCR1A_ADDR])
          (by simp [PORTB_ADDR, TCCR1B_ADDR]) (by simp [PORTB_ADDR, TCNT1L_ADDR])
          (by simp [PORTB_ADDR, TCNT1H_ADDR]) (by simp [PORTB_ADDR, TIFR1_ADDR]), hcP]
        exact Nat.mod_lt _ (by norm_num)
      · rw [hDfr PORTB_ADDR (by simp [PORTB_ADDR, TCCR1A_ADDR])
          (by simp [PORTB_ADDR, TCCR1B_ADDR]) (by simp [PORTB_ADDR, TCNT1L_ADDR])
          (by simp [PORTB_ADDR, TCNT1H_ADDR]) (by simp [PORTB_ADDR, TIFR1_ADDR]), hcP,
          portb_clear_fact _ (Nat.mod_lt _ (by norm_num))]
        simp [hpar]

/-- **C8** `main` configures the data-direction register once before the
loop (the initialisation's event trace is exactly one DDRB read-write
pair, and no delay run ever writes DDRB); from a flag-clear start every
half-iteration of the infinite loop completes (so the loop never exits),
the DDRB bit 5 stays set forever, and the pin level strictly alternates:
after half-iteration n the port bit 5 is high exactly when n is even
(set-high half), low exactly when n is odd (set-low half). -/
theorem main_loop_alternates (m : Mem) (hflag : m TIFR1_ADDR &&& 1 = 0) :
    (∀ n, ∃ s, halfRun m 62502 (n + 1) = some s ∧
      (s DDRB_ADDR).testBit 5 = true ∧
      (s PORTB_ADDR).testBit 5 = decide (n % 2 = 0)) ∧
    (mainInit m).2 = [Ev.rd DDRB_ADDR (m DDRB_ADDR % 256),
      Ev.wr DDRB_ADDR (((m DDRB_ADDR % 256) ||| 32) % 256)] ∧
    (∀ u, DDRB_ADDR ∉ (writesOf (delayTrace u)).map Prod.fst) := by
  refine ⟨?_, rfl, ddrb_not_in_delay_writes⟩
  intro n
  obtain ⟨s, hrun, _, hsD, _, hsP5⟩ := halfRun_inv m hflag n
  refine ⟨s, hrun, ?_, hsP5⟩
  rw [hsD, portb_set_fact _ (Nat.mod_lt _ (by norm_num))]

/-- Witness for `main_loop_alternates` at the all-zero register file. -/
theorem main_loop_alternates_witness :
    ((fun _ => 0 : Mem) TIFR1_ADDR &&& 1 = 0) ∧
    ((∀ n, ∃ s, halfRun (fun _ => 0) 62502 (n + 1) = some s ∧
      (s DDRB_ADDR).testBit 5 = true ∧
      (s PORTB_ADDR).testBit 5 = decide (n % 2 = 0)) ∧
    (mainInit (fun _ => 0)).2 = [Ev.rd DDRB_ADDR ((fun _ => 0 : Mem) DDRB_ADDR % 256),
      Ev.wr DDRB_ADDR ((((fun _ => 0 : Mem) DDRB_ADDR % 256) ||| 32) % 256)] ∧
    (∀ u, DDRB_ADDR ∉ (writesOf (delayTrace u)).map Prod.fst)) :=
  ⟨by decide, main_loop_alternates (fun _ => 0) (by decide)⟩
